import Mathlib

/-!
Verification of the Double Ratchet / X3DH implementation.

This development shallowly embeds the TypeScript sources
(`src/utils.ts`, `src/DoubleRatchet.ts`, `src/x3dh/utils.ts`, the X3DH
client) into Lean.  Byte strings are modelled as a free term algebra
(`Bytes`): each cryptographic primitive of the platform (HKDF-SHA512,
HMAC-SHA512, AES-256-CBC, X25519) is a constructor, which is the
standard ideal/symbolic model: primitives are injective and collision
free.  X25519 key pairs are identified by a natural number; the shared
secret of key pairs `i` and `j` is the canonical term
`dhOut (min i j) (max i j)`, which makes the Diffie-Hellman exchange
commutative exactly as the real function is.

Mutation in the TypeScript classes is modelled by explicit state
passing.  Because the methods of `DoubleRatchet` mutate `this` field by
field and may throw in the middle, every embedded operation returns the
state as it is at the moment the operation returns *or throws*:
`op : State → ... → State × Except Err α`.  This keeps the embedded
semantics faithful to JavaScript exception behaviour, which is what the
atomicity claims are about.
-/

/-- Message header, `Header` of `src/utils.ts`: the sender's current
ratchet public key `dh` (a hex string in the source, here the key-pair
identifier), the previous chain length `pn` and the message number `n`. -/
structure DRHeader where
  dh : Nat
  pn : Nat
  n : Nat
deriving DecidableEq, Repr

/-- Error kinds thrown by the sources: `Invalid key size` (the 32-byte
guards of `KDF_RK`, `KDF_CK`, `ENCRYPT`, `DECRYPT`, `HENCRYPT`),
`Chain Key for sending not initialized!`, `Too many skipped messages!`,
`Invalid signature!` (the AEAD tag check of `DECRYPT`), the AES-CBC
padding / JSON parse exceptions raised when decrypting with a
mismatched key, and `Unable to decrypt header!` of the HE ratchet. -/
inductive Err where
  | invalidKey
  | notInit
  | tooMany
  | authFail
  | badPad
  | headerFail
deriving DecidableEq, Repr

/-- Symbolic byte strings.  Each constructor is one of the primitives
used by the sources; terms are compared structurally, which models the
primitives as injective and collision free (ideal crypto).
`raw` is a literal buffer; `dhOut i j` the X25519 shared secret of key
pairs `i` and `j` (always built in canonical order through `DH`);
`pubRaw i` the raw 32-byte public key of pair `i`; `hkdf ikm salt info
len` the output of `hkdfSync("sha512", ikm, salt, info, len)`;
`hmac key msg` the SHA-512 HMAC digest (64 bytes); `slice b lo hi` is
`b.slice(lo, hi)` / `b.subarray(lo, hi)`; `aesEnc key iv pt` the
AES-256-CBC ciphertext of the utf-8 plaintext `pt` (a hex string in the
source); `aesEncH key iv h` the AES-256-CBC ciphertext of
`JSON.stringify(header)` produced by `HENCRYPT`; `cat2 a b` is
`Buffer.concat([a, b])` and also the string concatenation performed by
template literals; `hexOf b` is `b.toString("hex")`; `jsonHdr h` is
`JSON.stringify(header)`; `utf8 s` the utf-8 bytes of a JavaScript
string.  The string concatenations modelled by `cat2` are unambiguous
in the source (hex digits never start a JSON object, JSON escaping is
injective), so free constructors are faithful. -/
inductive Bytes where
  | raw (bs : List Nat)
  | dhOut (i j : Nat)
  | pubRaw (i : Nat)
  | hkdf (ikm salt : Bytes) (info : String) (len : Nat)
  | hmac (key msg : Bytes)
  | slice (b : Bytes) (lo hi : Nat)
  | aesEnc (key iv : Bytes) (pt : String)
  | aesEncH (key iv : Bytes) (h : DRHeader)
  | cat2 (a b : Bytes)
  | hexOf (b : Bytes)
  | jsonHdr (h : DRHeader)
  | utf8 (s : String)
deriving DecidableEq, Repr

namespace Bytes

/-- Byte length of a symbolic byte string: `buffer.byteLength`, which
the sources consult in their 32-byte key-size guards.  `raw`, `hkdf`
(output length parameter), `hmac` (SHA-512 digest, 64 bytes), `slice`
(clamping semantics of `subarray`), `dhOut`/`pubRaw` (X25519, 32
bytes), `cat2` and `utf8` follow the platform exactly; the guards are
never applied to AES ciphertexts, hex strings or JSON texts, whose
lengths are nominal paddings of the real formulas. -/
def len : Bytes → Nat
  | raw bs => bs.length
  | dhOut _ _ => 32
  | pubRaw _ => 32
  | hkdf _ _ _ n => n
  | hmac _ _ => 64
  | slice b lo hi => min hi b.len - lo
  | aesEnc _ _ pt => 16 * (pt.utf8ByteSize / 16 + 1)
  | aesEncH _ _ _ => 48
  | cat2 a b => a.len + b.len
  | hexOf b => 2 * b.len
  | jsonHdr _ => 32
  | utf8 s => s.utf8ByteSize

/-- Structural term size, used to show that a key derived from the root
key is a strictly larger term than the root key itself. -/
def bsize : Bytes → Nat
  | raw _ => 1
  | dhOut _ _ => 1
  | pubRaw _ => 1
  | hkdf ikm salt _ _ => ikm.bsize + salt.bsize + 1
  | hmac key msg => key.bsize + msg.bsize + 1
  | slice b _ _ => b.bsize + 1
  | aesEnc key iv _ => key.bsize + iv.bsize + 1
  | aesEncH key iv _ => key.bsize + iv.bsize + 1
  | cat2 a b => a.bsize + b.bsize + 1
  | hexOf b => b.bsize + 1
  | jsonHdr _ => 1
  | utf8 _ => 1

/-- Does the term `s` occur as a (possibly improper) subterm of `t`?
In the ideal model a freshly derived secret occurs in a term exactly
when the term was computed from it. -/
def hasSub (t : Bytes) (s : Bytes) : Bool :=
  (if t = s then true else
    match t with
    | raw _ => false
    | dhOut _ _ => false
    | pubRaw _ => false
    | hkdf ikm salt _ _ => ikm.hasSub s || salt.hasSub s
    | hmac key msg => key.hasSub s || msg.hasSub s
    | slice b _ _ => b.hasSub s
    | aesEnc key iv _ => key.hasSub s || iv.hasSub s
    | aesEncH key iv _ => key.hasSub s || iv.hasSub s
    | cat2 a b => a.hasSub s || b.hasSub s
    | hexOf b => b.hasSub s
    | jsonHdr _ => false
    | utf8 _ => false)

end Bytes

/-- Ciphertext-with-tag produced by `ENCRYPT` in `src/utils.ts`.  The
source returns the single hex string `ciphertext || signature` and
`DECRYPT` splits off the trailing 128 hex characters; since the tag is
always exactly 64 bytes the split is lossless, so the pair is a
faithful model of the wire string. -/
structure Ct where
  body : Bytes
  tag : Bytes
deriving DecidableEq, Repr

/-- Key-pair identifiers stand for the X25519 key pairs returned by
`GENERATE_DH` (`generateKeyPairSync("x25519", ...)`); the public key of
pair `i` is identified with `i` as well (hex DER strings are injective
images of the pair). -/
abbrev KeyId := Nat

/-- Embedding of `DH(keyPair, publicKey)` from `src/utils.ts`: X25519
scalar multiplication of `keyPair.privateKey` with `publicKey`.  The
canonical `min`/`max` ordering realises the defining property of the
real function, `DH(a, pub b) = DH(b, pub a)`. -/
def DH (keyPair : KeyId) (publicKey : KeyId) : Bytes :=
  .dhOut (min keyPair publicKey) (max keyPair publicKey)

/-- Embedding of `KDF_RK(rk, dhOut)` from `src/utils.ts`: guards
`rk.byteLength === 32`, then `hkdfSync("sha512", dhOut, rk,
"app-specific-secret-key", 64)` split as `kdf.slice(0, 32)` (root key)
and `kdf.slice(32)` (chain key, bytes 32..64). -/
def KDF_RK (rk : Bytes) (dhOut : Bytes) : Except Err (Bytes × Bytes) :=
  if rk.len ≠ 32 then .error .invalidKey
  else
    let kdf := Bytes.hkdf dhOut rk "app-specific-secret-key" 64
    .ok (kdf.slice 0 32, kdf.slice 32 64)

/-- Embedding of `KDF_CK(ck)` from `src/utils.ts`: guards
`ck.byteLength === 32`, then returns the pair
`[messageKey, chainKey]` where `messageKey` is
`HMAC-SHA512(ck, 0x01).subarray(0, 32)` and `chainKey` is
`HMAC-SHA512(ck, 0x02).subarray(0, 32)` — in exactly this order, even
though the function's own doc comment promises the pair
`(chain key, message key)`. -/
def KDF_CK (ck : Bytes) : Except Err (Bytes × Bytes) :=
  if ck.len ≠ 32 then .error .invalidKey
  else
    let messageKey := (Bytes.hmac ck (.raw [0x01])).slice 0 32
    let chainKey := (Bytes.hmac ck (.raw [0x02])).slice 0 32
    .ok (messageKey, chainKey)

/-- Root-key half `kdf.slice(0, 32)` of the `KDF_RK` output. -/
def KDF_RK_rootKey (rk dhOut : Bytes) : Bytes :=
  (Bytes.hkdf dhOut rk "app-specific-secret-key" 64).slice 0 32

/-- Chain-key half `kdf.slice(32)` of the `KDF_RK` output. -/
def KDF_RK_chainKey (rk dhOut : Bytes) : Bytes :=
  (Bytes.hkdf dhOut rk "app-specific-secret-key" 64).slice 32 64

/-- Value of the local `messageKey` in `KDF_CK`:
`HMAC-SHA512(ck, 0x01).subarray(0, 32)`.  Callers destructure
`[newCK, mk] = KDF_CK(ck)`, so this first component is what they
install as the *next chain key*. -/
def KDF_CK_messageKey (ck : Bytes) : Bytes :=
  (Bytes.hmac ck (.raw [0x01])).slice 0 32

/-- Value of the local `chainKey` in `KDF_CK`:
`HMAC-SHA512(ck, 0x02).subarray(0, 32)`; the second component, bound to
`mk` by every caller and used as the message key. -/
def KDF_CK_chainKey (ck : Bytes) : Bytes :=
  (Bytes.hmac ck (.raw [0x02])).slice 0 32

/-- Bytes of the 80-byte zero salt used by `ENCRYPT`/`DECRYPT`. -/
def zeroSalt80 : Bytes := .raw (List.replicate 80 0)

/-- Encryption key of `ENCRYPT`: `kdf.slice(0, 32)` of
`hkdfSync("sha512", mk, zeros(80), "app-specific-encryption-key", 80)`. -/
def encryptionKeyOf (mk : Bytes) : Bytes :=
  (Bytes.hkdf mk zeroSalt80 "app-specific-encryption-key" 80).slice 0 32

/-- Authentication key of `ENCRYPT`: `kdf.slice(32, 64)` of the same
HKDF output. -/
def authenticationKeyOf (mk : Bytes) : Bytes :=
  (Bytes.hkdf mk zeroSalt80 "app-specific-encryption-key" 80).slice 32 64

/-- AES-CBC IV of `ENCRYPT`: `kdf.slice(64)` (bytes 64..80) of the same
HKDF output — derived deterministically from `mk`, no randomness. -/
def ivOf (mk : Bytes) : Bytes :=
  (Bytes.hkdf mk zeroSalt80 "app-specific-encryption-key" 80).slice 64 80

/-- Embedding of `ENCRYPT(mk, plaintext, ad)` from `src/utils.ts`:
guards `mk.byteLength === 32`; AES-256-CBC encrypts the plaintext under
the HKDF-derived key and IV; the tag is
`HMAC-SHA512(authKey, ad ++ plaintext)` over the template-literal
concatenation; returns `ciphertext || tag`.  The function draws no
randomness: every component is a function of `mk`, `plaintext`, `ad`. -/
def ENCRYPT (mk : Bytes) (plaintext : String) (ad : Bytes) : Except Err Ct :=
  if mk.len ≠ 32 then .error .invalidKey
  else
    .ok ⟨.aesEnc (encryptionKeyOf mk) (ivOf mk) plaintext,
         .hmac (authenticationKeyOf mk) (.cat2 ad (.utf8 plaintext))⟩

/-- AES-256-CBC decryption of a symbolic ciphertext body.  Decrypting a
term produced with the same key and IV recovers the plaintext; any
other term fails (bad PKCS7 padding / garbage), the ideal model of CBC
with the negligible-probability garbage-accept path removed. -/
def aesDec (key iv : Bytes) (c : Bytes) : Except Err String :=
  match c with
  | .aesEnc k i pt => if k = key ∧ i = iv then .ok pt else .error .badPad
  | _ => .error .badPad

/-- Embedding of `DECRYPT(mk, message, ad)` from `src/utils.ts`: guards
`mk.byteLength === 32`; splits `message` into ciphertext and trailing
tag; AES-decrypts; recomputes `HMAC-SHA512(authKey, ad ++ plaintext)`
and throws `Invalid signature!` unless it equals the received tag. -/
def DECRYPT (mk : Bytes) (message : Ct) (ad : Bytes) : Except Err String :=
  if mk.len ≠ 32 then .error .invalidKey
  else
    match aesDec (encryptionKeyOf mk) (ivOf mk) message.body with
    | .error e => .error e
    | .ok plaintext =>
      let currentSignature :=
        Bytes.hmac (authenticationKeyOf mk) (.cat2 ad (.utf8 plaintext))
      if message.tag ≠ currentSignature then .error .authFail
      else .ok plaintext

/-- Embedding of `HEADER(keyPair, previousChainLength, messageNumber)`
from `src/utils.ts`. -/
def HEADER (keyPair : KeyId) (previousChainLength messageNumber : Nat) : DRHeader :=
  ⟨keyPair, previousChainLength, messageNumber⟩

/-- Embedding of `CONCAT(ad, header)` from `src/utils.ts` for a header
object: `ad.toString("hex") ++ JSON.stringify(header)`. -/
def CONCAT (ad : Bytes) (header : DRHeader) : Bytes :=
  .cat2 (.hexOf ad) (.jsonHdr header)

/-- Embedding of `CONCAT(ad, header)` for the string branch
(`typeof header === "string"`), used with the encrypted header of the
HE ratchet: `ad.toString("hex") ++ header`. -/
def CONCATstr (ad : Bytes) (header : Bytes) : Bytes :=
  .cat2 (.hexOf ad) header

/-- Constant `MAX_SKIP = 32` from `src/utils.ts`. -/
def MAX_SKIP : Nat := 32

/-- Zero salt of length 48 used by `HENCRYPT`/`HDECRYPT`. -/
def zeroSalt48 : Bytes := .raw (List.replicate 48 0)

/-- Header-encryption key: `kdf.slice(0, 32)` of `hkdfSync("sha512",
hk, zeros(48), "app-specific-header-encryption-key", 48)`. -/
def hEncryptionKeyOf (hk : Bytes) : Bytes :=
  (Bytes.hkdf hk zeroSalt48 "app-specific-header-encryption-key" 48).slice 0 32

/-- Header-encryption IV: `kdf.slice(32)` (bytes 32..48) of the same
HKDF output. -/
def hIvOf (hk : Bytes) : Bytes :=
  (Bytes.hkdf hk zeroSalt48 "app-specific-header-encryption-key" 48).slice 32 48

/-- Embedding of `HENCRYPT(hk, header)` from `src/utils.ts`: guards
`hk.byteLength === 32`, then AES-256-CBC encrypts
`JSON.stringify(header)` under the HKDF-derived key and IV. -/
def HENCRYPT (hk : Bytes) (header : DRHeader) : Except Err Bytes :=
  if hk.len ≠ 32 then .error .invalidKey
  else .ok (.aesEncH (hEncryptionKeyOf hk) (hIvOf hk) header)

/-- Embedding of `HDECRYPT(hk, ciphertext)` from `src/utils.ts`.  When
`hk` is null or not 32 bytes (`hk?.byteLength !== 32`) it returns null.
Otherwise it runs `createDecipheriv(...)` and `JSON.parse` with *no*
try/catch: decryption under the matching key yields the header, while a
mismatched key raises (AES padding error or JSON parse error) and the
exception propagates — the source never returns null for a mismatched
32-byte key. -/
def HDECRYPT (hk : Option Bytes) (ciphertext : Bytes) : Except Err (Option DRHeader) :=
  match hk with
  | none => .ok none
  | some k =>
    if k.len ≠ 32 then .ok none
    else
      match ciphertext with
      | .aesEncH ek ei h =>
        if ek = hEncryptionKeyOf k ∧ ei = hIvOf k then .ok (some h)
        else .error .badPad
      | _ => .error .badPad

/-- Key of the `MKSKIPPED` dictionary: the source indexes by the string
template `` `${dh}-${n}` `` where `dh` is either the remote public key
hex or the literal `null` (for `this.DHr` before the first ratchet), so
the key is faithfully the pair of an optional key id and a counter. -/
abbrev MKKey := Option KeyId × Nat

/-- Skipped-message-key dictionary, modelling a JavaScript object:
assignment to an existing key overwrites in place, a new key is
appended; deletion removes the binding. -/
abbrev MKMap := List (MKKey × Bytes)

/-- Lookup of `map[key]`, `key in map` being `isSome`. -/
def lookupMK (m : MKMap) (k : MKKey) : Option Bytes :=
  match m with
  | [] => none
  | (k', v) :: rest => if k' = k then some v else lookupMK rest k

/-- Assignment `map[key] = v` with JavaScript object semantics. -/
def insertMK (m : MKMap) (k : MKKey) (v : Bytes) : MKMap :=
  match m with
  | [] => [(k, v)]
  | (k', v') :: rest =>
    if k' = k then (k, v) :: rest else (k', v') :: insertMK rest k v

/-- Deletion `delete map[key]`. -/
def eraseMK (m : MKMap) (k : MKKey) : MKMap :=
  match m with
  | [] => []
  | (k', v') :: rest =>
    if k' = k then rest else (k', v') :: eraseMK rest k

/-- Session state of the `DoubleRatchet` class in
`src/DoubleRatchet.ts`: self ratchet key pair `DHs`, remote ratchet
public key `DHr` (nullable), root key `RK`, sending and receiving chain
keys `CKs`/`CKr` (nullable), counters `Ns`, `Nr`, `PN`, and the
skipped-message-key dictionary. -/
structure DR where
  DHs : KeyId
  DHr : Option KeyId
  RK : Bytes
  CKs : Option Bytes
  CKr : Option Bytes
  Ns : Nat
  Nr : Nat
  PN : Nat
  MKSKIPPED : MKMap
deriving DecidableEq, Repr

namespace DR

/-- Embedding of `DoubleRatchet.fromInitiatorSide(sk, keyPair,
publicKey)`: computes `[RK, CKs] = KDF_RK(sk, DH(keyPair, publicKey))`
and constructs `new DoubleRatchet(DHs, DHr, RK, CKs, CKs)` — note that
the source passes the *same* `CKs` buffer as both the sending and the
receiving chain key. -/
def fromInitiatorSide (sk : Bytes) (keyPair : KeyId) (publicKey : KeyId) :
    Except Err DR :=
  match KDF_RK sk (DH keyPair publicKey) with
  | .error e => .error e
  | .ok (rk, cks) =>
    .ok ⟨keyPair, some publicKey, rk, some cks, some cks, 0, 0, 0, []⟩

/-- Embedding of `DoubleRatchet.fromResponderSide(sk, keyPair)`:
`new DoubleRatchet(keyPair, null, sk, null, null)`. -/
def fromResponderSide (sk : Bytes) (keyPair : KeyId) : DR :=
  ⟨keyPair, none, sk, none, none, 0, 0, 0, []⟩

/-- Embedding of `DoubleRatchet.RatchetEncrypt(plaintext, ad)`.  The
returned state reflects the mutations performed before the method
returns or throws: `CKs` is replaced *before* the header is built and
`Ns` incremented before `ENCRYPT` runs. -/
def RatchetEncrypt (s : DR) (plaintext : String) (ad : Bytes) :
    DR × Except Err (DRHeader × Ct) :=
  match s.CKs with
  | none => (s, .error .notInit)
  | some ck =>
    match KDF_CK ck with
    | .error e => (s, .error e)
    | .ok (newCKs, mkey) =>
      let s1 := { s with CKs := some newCKs }
      let header := HEADER s1.DHs s1.PN s1.Ns
      let s2 := { s1 with Ns := s1.Ns + 1 }
      match ENCRYPT mkey plaintext (CONCAT ad header) with
      | .error e => (s2, .error e)
      | .ok ct => (s2, .ok (header, ct))

/-- Loop body of `DoubleRatchet.SkipMessageKeys`: while `Nr < until`,
`[newCKr, mkey] = KDF_CK(CKr)`, store `mkey` at `` `${DHr}-${Nr}` ``,
advance `CKr` and `Nr`.  Returns the mutated `(CKr, Nr, MKSKIPPED)`
together with the pending exception if `KDF_CK` threw.  The structural
`fuel` argument is always instantiated with `until - Nr`, the exact
iteration count of the source's while loop: the loop guard
`nr < untilN` is still tested on every iteration, and when `fuel`
reaches 0 the guard is false as well, so the two loops coincide. -/
def skipLoop (dhr : Option KeyId) (untilN : Nat) :
    Nat → Bytes → Nat → MKMap → (Bytes × Nat × MKMap) × Option Err
  | 0, ck, nr, mks => ((ck, nr, mks), none)
  | fuel + 1, ck, nr, mks =>
    if nr < untilN then
      match KDF_CK ck with
      | .error e => ((ck, nr, mks), some e)
      | .ok (newCKr, mkey) =>
        skipLoop dhr untilN fuel newCKr (nr + 1) (insertMK mks (dhr, nr) mkey)
    else ((ck, nr, mks), none)

/-- Embedding of `DoubleRatchet.SkipMessageKeys(until)`: throws
`Too many skipped messages!` when `Nr + MAX_SKIP < until`; otherwise,
when `CKr` is non-null, runs the skip loop. -/
def SkipMessageKeys (s : DR) (untilN : Nat) : DR × Option Err :=
  if s.Nr + MAX_SKIP < untilN then (s, some .tooMany)
  else
    match s.CKr with
    | none => (s, none)
    | some ck =>
      let ((ck', nr', mks'), e) :=
        skipLoop s.DHr untilN (untilN - s.Nr) ck s.Nr s.MKSKIPPED
      ({ s with CKr := some ck', Nr := nr', MKSKIPPED := mks' }, e)

/-- Embedding of `DoubleRatchet.DHRatchet(header)`, mutating field by
field in source order: `PN ← Ns`, `Ns ← 0`, `Nr ← 0`, `DHr ←
header.dh`, `[RK, CKr] = KDF_RK(RK, DH(DHs, DHr))`, `DHs ←
GENERATE_DH()`, `[RK, CKs] = KDF_RK(RK, DH(DHs, DHr))`.  The fresh key
pair produced by `GENERATE_DH` is passed in as `fresh`. -/
def DHRatchet (s : DR) (header : DRHeader) (fresh : KeyId) : DR × Option Err :=
  let s1 := { s with PN := s.Ns, Ns := 0, Nr := 0, DHr := some header.dh }
  match KDF_RK s1.RK (DH s1.DHs header.dh) with
  | .error e => (s1, some e)
  | .ok (rk1, ckr) =>
    let s2 := { s1 with RK := rk1, CKr := some ckr, DHs := fresh }
    match KDF_RK rk1 (DH fresh header.dh) with
    | .error e => (s2, some e)
    | .ok (rk2, cks) => ({ s2 with RK := rk2, CKs := some cks }, none)

/-- Embedding of `DoubleRatchet.TrySkippedMessageKeys(header,
ciphertext, ad)`: when `` `${header.dh}-${header.n}` `` is present the
key is *deleted first* and `DECRYPT` runs afterwards, so a failed
decryption leaves the deletion in place and the exception propagates. -/
def TrySkippedMessageKeys (s : DR) (header : DRHeader) (ciphertext : Ct)
    (ad : Bytes) : DR × Except Err (Option String) :=
  match lookupMK s.MKSKIPPED (some header.dh, header.n) with
  | none => (s, .ok none)
  | some mkey =>
    let s1 := { s with MKSKIPPED := eraseMK s.MKSKIPPED (some header.dh, header.n) }
    match DECRYPT mkey ciphertext (CONCAT ad header) with
    | .error e => (s1, .error e)
    | .ok plaintext => (s1, .ok (some plaintext))

/-- Embedding of `DoubleRatchet.RatchetDecrypt(header, ciphertext,
ad)`.  The state of the first component is the object's state when the
method returns or when the pending exception propagates — the class
performs no snapshot or restore.  `KDF_CK(this.CKr as Buffer)` with
`CKr === null` hits the `ck?.byteLength !== 32` guard and throws the
key-size error. -/
def RatchetDecrypt (s : DR) (header : DRHeader) (ciphertext : Ct) (ad : Bytes)
    (fresh : KeyId) : DR × Except Err String :=
  match TrySkippedMessageKeys s header ciphertext ad with
  | (s1, .error e) => (s1, .error e)
  | (s1, .ok (some plaintext)) => (s1, .ok plaintext)
  | (s1, .ok none) =>
    let step1 :=
      if some header.dh ≠ s1.DHr then
        match SkipMessageKeys s1 header.pn with
        | (s2, some e) => (s2, some e)
        | (s2, none) => DHRatchet s2 header fresh
      else (s1, none)
    match step1 with
    | (s3, some e) => (s3, .error e)
    | (s3, none) =>
      match SkipMessageKeys s3 header.n with
      | (s4, some e) => (s4, .error e)
      | (s4, none) =>
        match s4.CKr with
        | none => (s4, .error .invalidKey)
        | some ckr =>
          match KDF_CK ckr with
          | .error e => (s4, .error e)
          | .ok (newCKr, mkey) =>
            let s5 := { s4 with CKr := some newCKr, Nr := s4.Nr + 1 }
            match DECRYPT mkey ciphertext (CONCAT ad header) with
            | .error e => (s5, .error e)
            | .ok plaintext => (s5, .ok plaintext)

end DR

/-- Flat `Buffer.concat(list)` over a list built by successive
`push` calls; both X3DH peers build their DH lists with the same
length and order, so the right fold is a faithful common image. -/
def concatList : List Bytes → Bytes
  | [] => .raw []
  | [b] => b
  | b :: rest => .cat2 b (concatList rest)

/-- Embedding of `KDF(KM)` from `src/x3dh/utils.ts`: 32 bytes of
`hkdfSync("sha512", F ++ KM, zeros(32), "My super secret app", 32)`
with `F` 32 bytes of `0xFF`. -/
def KDFx3dh (KM : Bytes) : Bytes :=
  .hkdf (.cat2 (.raw (List.replicate 32 0xFF)) KM)
    (.raw (List.replicate 32 0)) "My super secret app" 32

/-- Embedding of `Encode(PK)` from `src/x3dh/utils.ts`: the single
curve-id byte `0x00` followed by the public key bytes. -/
def Encode (PK : KeyId) : Bytes :=
  .cat2 (.raw [0x00]) (.pubRaw PK)

/-- SK and AD computed by the initiator in `Client.sendMessage` (X3DH
client) on first contact: `DH1 = DH(IKa, SPKb)`, `DH2 = DH(EKa, IKb)`,
`DH3 = DH(EKa, SPKb)`, optionally `DH4 = DH(EKa, OPKb)`;
`SK = KDF(Buffer.concat(DHList))`;
`AD = Encode(IKa.pk) ++ Encode(IKb)`.  Key pairs are passed as ids: the
initiator holds the private halves of `IKa`, `EKa` and the bundle's
public halves of `IKb`, `SPKb`, `OPKb`. -/
def sendMessageSKAD (IKa EKa IKb SPKb : KeyId) (OPKb : Option KeyId) :
    Bytes × Bytes :=
  let DHList :=
    [DH IKa SPKb, DH EKa IKb, DH EKa SPKb] ++
      (match OPKb with
       | some opk => [DH EKa opk]
       | none => [])
  (KDFx3dh (concatList DHList), .cat2 (Encode IKa) (Encode IKb))

/-- SK and AD computed by the responder in `Client.decryptMessage` on
receipt of a first message: mirror-symmetric pairing
`DH1 = DH(SPKb, IKa)`, `DH2 = DH(IKb, EKa)`, `DH3 = DH(SPKb, EKa)`,
optionally `DH4 = DH(OPKb, EKa)`; same `KDF`;
`AD = Encode(IKa) ++ Encode(IKb.pk)`.  The responder holds the private
halves of `IKb`, `SPKb`, `OPKb` and the message's public `IKa`, `EKa`. -/
def decryptMessageSKAD (IKb SPKb : KeyId) (OPKb : Option KeyId)
    (IKa EKa : KeyId) : Bytes × Bytes :=
  let DHList :=
    [DH SPKb IKa, DH IKb EKa, DH SPKb EKa] ++
      (match OPKb with
       | some opk => [DH opk EKa]
       | none => [])
  (KDFx3dh (concatList DHList), .cat2 (Encode IKa) (Encode IKb))

/-- Embedding of `DoubleRatchetHE.DecryptHeader(encryptedHeader)`: try
`HDECRYPT(HKr, ...)`, then `HDECRYPT(NHKr, ...)` (a new-epoch signal),
else throw `Unable to decrypt header!`.  An exception raised inside
`HDECRYPT` propagates. -/
def DecryptHeaderHE (HKr : Option Bytes) (NHKr : Bytes)
    (encryptedHeader : Bytes) : Except Err (DRHeader × Bool) :=
  match HDECRYPT HKr encryptedHeader with
  | .error e => .error e
  | .ok (some header) => .ok (header, false)
  | .ok none =>
    match HDECRYPT (some NHKr) encryptedHeader with
    | .error e => .error e
    | .ok (some header) => .ok (header, true)
    | .ok none => .error .headerFail

/-- Concrete 32-byte shared secret used by the witness instances. -/
def skW : Bytes := .raw (List.replicate 32 0)

/-- Concrete associated data used by the witness instances. -/
def adW : Bytes := .raw [1, 2, 3]

/-- Initiator session of the witness run: key pair 0, peer public key 1. -/
def A0W : DR :=
  ⟨0, some 1, KDF_RK_rootKey skW (DH 0 1),
    some (KDF_RK_chainKey skW (DH 0 1)),
    some (KDF_RK_chainKey skW (DH 0 1)), 0, 0, 0, []⟩

/-- Message key of the witness run's first message. -/
def mk1W : Bytes := KDF_CK_chainKey (KDF_RK_chainKey skW (DH 0 1))

/-- Ciphertext of the witness run's first message. -/
def ct1W : Ct :=
  ⟨.aesEnc (encryptionKeyOf mk1W) (ivOf mk1W) "Hi Bob!",
   .hmac (authenticationKeyOf mk1W) (.cat2 (CONCAT adW ⟨0, 0, 0⟩) (.utf8 "Hi Bob!"))⟩

/-- Message key of the witness run's reply (fresh ratchet key pair 2). -/
def mk2W : Bytes :=
  KDF_CK_chainKey (KDF_RK_chainKey (KDF_RK_rootKey skW (DH 0 1)) (DH 2 0))

/-- Ciphertext of the witness run's reply. -/
def ct2W : Ct :=
  ⟨.aesEnc (encryptionKeyOf mk2W) (ivOf mk2W) "Hi Alice!",
   .hmac (authenticationKeyOf mk2W) (.cat2 (CONCAT adW ⟨2, 0, 0⟩) (.utf8 "Hi Alice!"))⟩

/-- Iterated chain-key advancement: the value of `CKr` after `n`
iterations of the skip loop, each iteration installing the first
component (`messageKey`, the HMAC-0x01 half) of `KDF_CK` as the next
chain key, exactly as the destructuring `[newCKr, mk] = KDF_CK(CKr)`
does. -/
def ckIter (ck : Bytes) : Nat → Bytes
  | 0 => ck
  | n + 1 => KDF_CK_messageKey (ckIter ck n)

/-- Concrete session state holding one skipped message key, used to
exhibit the missing rollback of `RatchetDecrypt`: the stored key
`mkBadW` does not authenticate the incoming ciphertext. -/
def mkBadW : Bytes := .raw (List.replicate 32 7)

/-- Concrete state whose `MKSKIPPED` holds `mkBadW` for the remote key
5, message 0. -/
def sSkipW : DR := ⟨9, some 5, skW, none, none, 0, 0, 0, [((some 5, 0), mkBadW)]⟩

/-- Concrete garbage ciphertext (not produced by `ENCRYPT`). -/
def ctBadW : Ct := ⟨.raw [222], .raw [173]⟩

/-- Concrete state with `Nr = 1` and a well-formed receiving chain key,
used against the `SkipMessageKeys` postcondition `Nr = until`. -/
def s4W : DR := ⟨0, some 1, skW, none, some skW, 0, 1, 0, []⟩

/-- Concrete state with a well-formed sending chain key, used as the
witness input of the symmetric-ratchet-step theorem. -/
def s2W : DR := ⟨0, some 1, skW, some skW, none, 0, 0, 4, []⟩

/-- Second concrete 32-byte header key, distinct from `skW`. -/
def hk2W : Bytes := .raw (List.replicate 32 1)

/-- Decidable equality for `Except`, so concrete runs can be checked by
`decide`. -/
instance exceptDecEq {E A : Type} [DecidableEq E] [DecidableEq A] :
    DecidableEq (Except E A)
  | .error e, .error e2 =>
    if h : e = e2 then .isTrue (by rw [h]) else .isFalse (by simp [h])
  | .error _, .ok _ => .isFalse (by simp)
  | .ok _, .error _ => .isFalse (by simp)
  | .ok a, .ok a2 =>
    if h : a = a2 then .isTrue (by rw [h]) else .isFalse (by simp [h])

theorem KDF_RK_rootKey_len (rk dhOut : Bytes) : (KDF_RK_rootKey rk dhOut).len = 32 := rfl

theorem KDF_RK_chainKey_len (rk dhOut : Bytes) : (KDF_RK_chainKey rk dhOut).len = 32 := rfl

theorem KDF_CK_messageKey_len (ck : Bytes) : (KDF_CK_messageKey ck).len = 32 := rfl

theorem KDF_CK_chainKey_len (ck : Bytes) : (KDF_CK_chainKey ck).len = 32 := rfl

theorem KDF_RK_ok (rk dhOut : Bytes) (h : rk.len = 32) :
    KDF_RK rk dhOut = .ok (KDF_RK_rootKey rk dhOut, KDF_RK_chainKey rk dhOut) := by
  simp [KDF_RK, KDF_RK_rootKey, KDF_RK_chainKey, h]

theorem KDF_CK_ok (ck : Bytes) (h : ck.len = 32) :
    KDF_CK ck = .ok (KDF_CK_messageKey ck, KDF_CK_chainKey ck) := by
  simp [KDF_CK, KDF_CK_messageKey, KDF_CK_chainKey, h]

theorem DH_comm (x y : KeyId) : DH x y = DH y x := by
  unfold DH
  rw [Nat.min_comm, Nat.max_comm]

/-- C1.  For every pair of sessions initialized from the same 32-byte
`SK` and B's DH key pair (A via `fromInitiatorSide` with B's public
key, B via `fromResponderSide`), and all plaintexts and associated
data: the `(header, ciphertext)` produced by `A.RatchetEncrypt(p, ad)`
decrypts in `B.RatchetDecrypt` to `p`, and symmetrically the reply B
encrypts after that first decryption decrypts at A.  `f` and `g` are
the fresh ratchet key pairs `GENERATE_DH` returns inside the two
`DHRatchet` steps; `f ≠ b` states that B's fresh key pair is a new one
(`GENERATE_DH` never re-issues an existing pair). -/
theorem C1_round_trip
    (sk : Bytes) (a b f g : KeyId) (p q : String) (ad ad2 : Bytes)
    (hsk : sk.len = 32) (hfb : f ≠ b) :
    ∀ A0, DR.fromInitiatorSide sk a b = .ok A0 →
    ∀ h1 c1, (DR.RatchetEncrypt A0 p ad).2 = .ok (h1, c1) →
    (DR.RatchetDecrypt (DR.fromResponderSide sk b) h1 c1 ad f).2 = .ok p ∧
    (∀ h2 c2,
      (DR.RatchetEncrypt (DR.RatchetDecrypt (DR.fromResponderSide sk b) h1 c1 ad f).1 q ad2).2
        = .ok (h2, c2) →
      (DR.RatchetDecrypt (DR.RatchetEncrypt A0 p ad).1 h2 c2 ad2 g).2 = .ok q) := by
  intro A0 hA0 h1 c1 henc
  simp [DR.fromInitiatorSide, KDF_RK_ok, hsk] at hA0
  subst hA0
  simp [DR.RatchetEncrypt, KDF_CK_ok, KDF_RK_chainKey_len, ENCRYPT,
    KDF_CK_chainKey_len, HEADER] at henc
  obtain ⟨hh1, hc1⟩ := henc
  subst hh1 hc1
  have hdec1 : (DR.RatchetDecrypt (DR.fromResponderSide sk b) (⟨a, 0, 0⟩ : DRHeader)
      ⟨.aesEnc (encryptionKeyOf (KDF_CK_chainKey (KDF_RK_chainKey sk (DH a b))))
          (ivOf (KDF_CK_chainKey (KDF_RK_chainKey sk (DH a b)))) p,
        .hmac (authenticationKeyOf (KDF_CK_chainKey (KDF_RK_chainKey sk (DH a b))))
          (.cat2 (CONCAT ad (⟨a, 0, 0⟩ : DRHeader)) (.utf8 p))⟩ ad f) =
      (⟨f, some a,
        KDF_RK_rootKey (KDF_RK_rootKey sk (DH a b)) (DH f a),
        some (KDF_RK_chainKey (KDF_RK_rootKey sk (DH a b)) (DH f a)),
        some (KDF_CK_messageKey (KDF_RK_chainKey sk (DH a b))),
        0, 1, 0, []⟩, .ok p) := by
    simp [DR.RatchetDecrypt, DR.fromResponderSide, DR.TrySkippedMessageKeys,
      lookupMK, DR.SkipMessageKeys, MAX_SKIP, DR.skipLoop, DR.DHRatchet,
      KDF_RK_ok, KDF_CK_ok, KDF_RK_rootKey_len, KDF_RK_chainKey_len,
      KDF_CK_messageKey_len, KDF_CK_chainKey_len, DECRYPT, aesDec,
      HEADER, hsk, DH_comm]
  refine ⟨by rw [hdec1], ?_⟩
  intro h2 c2 henc2
  rw [hdec1] at henc2
  simp [DR.RatchetEncrypt, KDF_CK_ok, KDF_RK_chainKey_len, ENCRYPT,
    KDF_CK_chainKey_len, HEADER] at henc2
  obtain ⟨hh2, hc2⟩ := henc2
  subst hh2 hc2
  simp [DR.RatchetEncrypt, KDF_CK_ok, KDF_RK_chainKey_len, ENCRYPT,
    KDF_CK_chainKey_len]
  simp [DR.RatchetDecrypt, DR.TrySkippedMessageKeys, lookupMK,
    DR.SkipMessageKeys, MAX_SKIP, DR.skipLoop, DR.DHRatchet,
    KDF_RK_ok, KDF_CK_ok, KDF_RK_rootKey_len, KDF_RK_chainKey_len,
    KDF_CK_messageKey_len, KDF_CK_chainKey_len, DECRYPT, aesDec,
    HEADER, hsk, hfb, DH_comm]

/-- C1 witness: the round trip runs end to end on the concrete shared
secret `skW`, key pairs 0 (A), 1 (B), fresh pairs 2 and 3, plaintexts
`Hi Bob!` / `Hi Alice!` and associated data `adW`. -/
theorem C1_round_trip_witness :
    (DR.RatchetDecrypt (DR.fromResponderSide skW 1) ⟨0, 0, 0⟩ ct1W adW 2).2
      = .ok "Hi Bob!" ∧
    (DR.RatchetDecrypt (DR.RatchetEncrypt A0W "Hi Bob!" adW).1 ⟨2, 0, 0⟩ ct2W adW 3).2
      = .ok "Hi Alice!" := by
  have h := C1_round_trip skW 0 1 2 3 "Hi Bob!" "Hi Alice!" adW adW rfl
    (by decide) A0W (by rfl) ⟨0, 0, 0⟩ ct1W (by rfl)
  exact ⟨h.1, h.2 ⟨2, 0, 0⟩ ct2W (by rfl)⟩

/-- C7.  Initiator-side initialization: `fromInitiatorSide` produces
`DHs = keyPair`, `DHr = publicKey`, `(RK, CKs) = KDF_RK(SK, DH(DHs,
DHr))` — but `CKr` is set to the same chain key as `CKs`, not to null:
the constructor call is `new DoubleRatchet(DHs, DHr, RK, CKs, CKs)`,
although the constructor's own doc comment says the receiving chain key
is left empty. -/
theorem C7_initiator_CKr_equals_CKs
    (sk : Bytes) (keyPair publicKey : KeyId) (hsk : sk.len = 32) :
    DR.fromInitiatorSide sk keyPair publicKey =
      .ok ⟨keyPair, some publicKey, KDF_RK_rootKey sk (DH keyPair publicKey),
        some (KDF_RK_chainKey sk (DH keyPair publicKey)),
        some (KDF_RK_chainKey sk (DH keyPair publicKey)), 0, 0, 0, []⟩ ∧
    ∀ st, DR.fromInitiatorSide sk keyPair publicKey = .ok st →
      st.CKr = st.CKs ∧ st.CKr ≠ none := by
  have h : DR.fromInitiatorSide sk keyPair publicKey =
      .ok ⟨keyPair, some publicKey, KDF_RK_rootKey sk (DH keyPair publicKey),
        some (KDF_RK_chainKey sk (DH keyPair publicKey)),
        some (KDF_RK_chainKey sk (DH keyPair publicKey)), 0, 0, 0, []⟩ := by
    simp [DR.fromInitiatorSide, KDF_RK_ok, hsk]
  refine ⟨h, ?_⟩
  intro st hst
  rw [h] at hst
  simp only [Except.ok.injEq] at hst
  subst hst
  simp

/-- C7 witness: initiator initialization at the concrete shared secret
`skW` with key pair 0 and peer public key 1. -/
theorem C7_initiator_CKr_equals_CKs_witness :
    DR.fromInitiatorSide skW 0 1 = .ok A0W ∧ A0W.CKr ≠ none :=
  ⟨(C7_initiator_CKr_equals_CKs skW 0 1 rfl).1,
   ((C7_initiator_CKr_equals_CKs skW 0 1 rfl).2 A0W
     (C7_initiator_CKr_equals_CKs skW 0 1 rfl).1).2⟩

/-- C2.  Symmetric ratchet step of `RatchetEncrypt`: the message key
actually used for encryption is `KDF_CK_chainKey ck = HMAC-SHA512(ck,
0x02)[0..32]`, and the replacement sending chain key is
`KDF_CK_messageKey ck = HMAC-SHA512(ck, 0x01)[0..32]` — the two halves
are swapped relative to the claim, because `KDF_CK` returns
`[messageKey, chainKey]` while every caller destructures
`[newCK, mk]`.  The last conjunct shows the two halves really differ. -/
theorem C2_symmetric_step_uses_0x02_half
    (s : DR) (ck : Bytes) (p : String) (ad : Bytes)
    (hck : s.CKs = some ck) (hlen : ck.len = 32) :
    (DR.RatchetEncrypt s p ad).2 =
      .ok (⟨s.DHs, s.PN, s.Ns⟩,
        ⟨.aesEnc (encryptionKeyOf (KDF_CK_chainKey ck)) (ivOf (KDF_CK_chainKey ck)) p,
         .hmac (authenticationKeyOf (KDF_CK_chainKey ck))
           (.cat2 (CONCAT ad ⟨s.DHs, s.PN, s.Ns⟩) (.utf8 p))⟩) ∧
    (DR.RatchetEncrypt s p ad).1.CKs = some (KDF_CK_messageKey ck) ∧
    KDF_CK_messageKey ck = (Bytes.hmac ck (.raw [0x01])).slice 0 32 ∧
    KDF_CK_chainKey ck = (Bytes.hmac ck (.raw [0x02])).slice 0 32 ∧
    KDF_CK_messageKey ck ≠ KDF_CK_chainKey ck := by
  refine ⟨?_, ?_, rfl, rfl, ?_⟩
  · simp [DR.RatchetEncrypt, hck, KDF_CK_ok, hlen, ENCRYPT,
      KDF_CK_chainKey_len, HEADER, CONCAT]
  · simp [DR.RatchetEncrypt, hck, KDF_CK_ok, hlen, ENCRYPT, KDF_CK_chainKey_len]
  · simp [KDF_CK_messageKey, KDF_CK_chainKey]

/-- C2 witness: the symmetric ratchet step on the concrete state `s2W`
whose sending chain key is the 32-byte buffer `skW`. -/
theorem C2_symmetric_step_uses_0x02_half_witness :
    (DR.RatchetEncrypt s2W "m" adW).2 =
      .ok (⟨0, 4, 0⟩,
        ⟨.aesEnc (encryptionKeyOf (KDF_CK_chainKey skW)) (ivOf (KDF_CK_chainKey skW)) "m",
         .hmac (authenticationKeyOf (KDF_CK_chainKey skW))
           (.cat2 (CONCAT adW ⟨0, 4, 0⟩) (.utf8 "m"))⟩) ∧
    (DR.RatchetEncrypt s2W "m" adW).1.CKs = some (KDF_CK_messageKey skW) ∧
    KDF_CK_messageKey skW ≠ KDF_CK_chainKey skW := by
  have h := C2_symmetric_step_uses_0x02_half s2W skW "m" adW rfl rfl
  exact ⟨h.1, h.2.1, h.2.2.2.2⟩

/-- C3.  A failing `RatchetDecrypt` does not restore the session state:
on the concrete state `sSkipW`, the incoming header matches the stored
skipped key `(5, 0)`, `TrySkippedMessageKeys` deletes the key before
decrypting, the decryption throws, and the exception leaves the state
with the deletion committed — contradicting the method's own doc
comment, which promises that changes to the state object are discarded
when an exception is raised. -/
theorem C3_failed_decrypt_keeps_mutation :
    (DR.RatchetDecrypt sSkipW ⟨5, 0, 0⟩ ctBadW adW 99).2 = .error .badPad ∧
    (DR.RatchetDecrypt sSkipW ⟨5, 0, 0⟩ ctBadW adW 99).1 ≠ sSkipW ∧
    (DR.RatchetDecrypt sSkipW ⟨5, 0, 0⟩ ctBadW adW 99).1.MKSKIPPED = [] := by
  decide

/-- C5.  `HDECRYPT` under a mismatched 32-byte header key raises
instead of returning null: decrypting a ciphertext produced by
`HENCRYPT` under `hk2W` with the different 32-byte key `skW` throws the
AES padding / JSON parse exception, while only a null header key makes
`HDECRYPT` return null.  `DecryptHeader` of the HE ratchet therefore
propagates the exception instead of falling through to `NHKr`. -/
theorem C5_hdecrypt_raises_on_mismatch :
    HENCRYPT hk2W ⟨1, 2, 3⟩ =
      .ok (.aesEncH (hEncryptionKeyOf hk2W) (hIvOf hk2W) ⟨1, 2, 3⟩) ∧
    HDECRYPT (some skW) (.aesEncH (hEncryptionKeyOf hk2W) (hIvOf hk2W) ⟨1, 2, 3⟩) =
      .error .badPad ∧
    HDECRYPT none (.aesEncH (hEncryptionKeyOf hk2W) (hIvOf hk2W) ⟨1, 2, 3⟩) =
      .ok none ∧
    DecryptHeaderHE (some skW) skW (.aesEncH (hEncryptionKeyOf hk2W) (hIvOf hk2W) ⟨1, 2, 3⟩) =
      .error .badPad := by
  decide

theorem lookupMK_insert_self (m : MKMap) (k : MKKey) (v : Bytes) :
    lookupMK (insertMK m k v) k = some v := by
  induction m with
  | nil => simp [insertMK, lookupMK]
  | cons kv rest ih =>
    by_cases h : kv.1 = k
    · simp [insertMK, h, lookupMK]
    · simp [insertMK, h, lookupMK, ih]

theorem lookupMK_insert_ne (m : MKMap) (k k2 : MKKey) (v : Bytes)
    (h : k2 ≠ k) : lookupMK (insertMK m k v) k2 = lookupMK m k2 := by
  induction m with
  | nil => simp [insertMK, lookupMK, h, Ne.symm h]
  | cons kv rest ih =>
    by_cases hk : kv.1 = k
    · subst hk
      simp [insertMK, lookupMK, h, Ne.symm h]
    · simp [insertMK, hk, lookupMK, ih]

theorem ckIter_len (ck : Bytes) (n : Nat) (h : ck.len = 32) :
    (ckIter ck n).len = 32 := by
  cases n with
  | zero => simpa [ckIter]
  | succ m => simp [ckIter, KDF_CK_messageKey_len]

theorem ckIter_shift (ck : Bytes) (n : Nat) :
    ckIter (KDF_CK_messageKey ck) n = ckIter ck (n + 1) := by
  induction n with
  | zero => simp [ckIter]
  | succ m ih => simp [ckIter, ih]

theorem skipLoop_run (dhr : Option KeyId) (untilN : Nat) :
    ∀ fuel ck nr mks, ck.len = 32 → fuel = untilN - nr →
      (DR.skipLoop dhr untilN fuel ck nr mks).2 = none ∧
      (DR.skipLoop dhr untilN fuel ck nr mks).1.1 = ckIter ck (untilN - nr) ∧
      (DR.skipLoop dhr untilN fuel ck nr mks).1.2.1 = max nr untilN := by
  intro fuel
  induction fuel with
  | zero =>
    intro ck nr mks hck hf
    have hle : untilN ≤ nr := by omega
    have h0 : untilN - nr = 0 := by omega
    simp [DR.skipLoop, h0, ckIter, Nat.max_eq_left hle]
  | succ m ih =>
    intro ck nr mks hck hf
    by_cases h : nr < untilN
    · have hm : m = untilN - (nr + 1) := by omega
      have hsh : untilN - (nr + 1) + 1 = untilN - nr := by omega
      have := ih (KDF_CK_messageKey ck) (nr + 1)
        (insertMK mks (dhr, nr) (KDF_CK_chainKey ck)) (KDF_CK_messageKey_len ck) hm
      simp [DR.skipLoop, h, KDF_CK_ok ck hck, this.1, this.2.1, this.2.2,
        ckIter_shift, hsh]
      omega
    · have h0 : untilN - nr = 0 := by omega
      simp [DR.skipLoop, h, h0, ckIter]
      omega

theorem skipLoop_lookup_out (dhr : Option KeyId) (untilN : Nat) :
    ∀ fuel ck nr mks (k : MKKey), (k.2 < nr ∨ untilN ≤ k.2 ∨ k.1 ≠ dhr) →
      lookupMK (DR.skipLoop dhr untilN fuel ck nr mks).1.2.2 k = lookupMK mks k := by
  intro fuel
  induction fuel with
  | zero => intro ck nr mks k hk; simp [DR.skipLoop]
  | succ m ih =>
    intro ck nr mks k hk
    by_cases h : nr < untilN
    · match hK : KDF_CK ck with
      | .error e => simp [DR.skipLoop, h, hK]
      | .ok (newCKr, mkey) =>
        have hne : k ≠ (dhr, nr) := by
          rcases hk with h1 | h1 | h1
          · intro he; rw [he] at h1; omega
          · intro he; rw [he] at h1; simp at h1; omega
          · intro he; rw [he] at h1; simp at h1
        have hrec := ih newCKr (nr + 1) (insertMK mks (dhr, nr) mkey) k
          (by rcases hk with h1 | h1 | h1
              · exact Or.inl (by omega)
              · exact Or.inr (Or.inl h1)
              · exact Or.inr (Or.inr h1))
        simp [DR.skipLoop, h, hK, hrec, lookupMK_insert_ne mks (dhr, nr) k mkey hne]
    · simp [DR.skipLoop, h]

theorem skipLoop_lookup_in (dhr : Option KeyId) (untilN : Nat) :
    ∀ fuel ck nr mks i, ck.len = 32 → fuel = untilN - nr → nr ≤ i → i < untilN →
      lookupMK (DR.skipLoop dhr untilN fuel ck nr mks).1.2.2 (dhr, i)
        = some (KDF_CK_chainKey (ckIter ck (i - nr))) := by
  intro fuel
  induction fuel with
  | zero => intro ck nr mks i hck hf hlo hhi; omega
  | succ m ih =>
    intro ck nr mks i hck hf hlo hhi
    have h : nr < untilN := by omega
    rcases Nat.eq_or_lt_of_le hlo with heq | hlt
    · subst heq
      have hout := skipLoop_lookup_out dhr untilN m (KDF_CK_messageKey ck) (nr + 1)
        (insertMK mks (dhr, nr) (KDF_CK_chainKey ck)) (dhr, nr) (Or.inl (by omega))
      simp [DR.skipLoop, h, KDF_CK_ok ck hck, hout,
        lookupMK_insert_self, ckIter]
    · have hm : m = untilN - (nr + 1) := by omega
      have hrec := ih (KDF_CK_messageKey ck) (nr + 1)
        (insertMK mks (dhr, nr) (KDF_CK_chainKey ck)) i
        (KDF_CK_messageKey_len ck) hm hlt hhi
      have hsh : i - (nr + 1) + 1 = i - nr := by omega
      rw [ckIter_shift, hsh] at hrec
      simp [DR.skipLoop, h, KDF_CK_ok ck hck, hrec]

/-- C4 counterexample: on the state `s4W` with `Nr = 1` and a
well-formed receiving chain key, `SkipMessageKeys(0)` does not throw
and leaves `Nr = 1`, while the claim requires it to leave
`Nr = until = 0`: the while loop `while (Nr < until)` never runs
backwards. -/
theorem C4_counterexample_Nr_not_until :
    (DR.SkipMessageKeys s4W 0).2 = none ∧
    (DR.SkipMessageKeys s4W 0).1.Nr = 1 ∧ (1 : Nat) ≠ 0 := by
  decide

/-- C4 as amended.  `SkipMessageKeys(until)` throws `TooManySkipped`
exactly when `Nr + MAX_SKIP < until` (`MAX_SKIP = 32`); otherwise, with
a null `CKr` the state is unchanged, and with a well-formed `CKr` it
stores one message key under `(DHr, i)` for every position
`i ∈ [Nr, until)`, advances `CKr` by one `KDF_CK` step per position,
leaves every other `MKSKIPPED` binding untouched, leaves
`Nr = max(Nr, until)` — not `until`, which differs when `until < Nr` —
and touches no other field. -/
theorem C4_skip_message_keys (s : DR) (untilN : Nat)
    (hwf : ∀ ck, s.CKr = some ck → ck.len = 32) :
    ((DR.SkipMessageKeys s untilN).2 = some .tooMany ↔ s.Nr + MAX_SKIP < untilN) ∧
    (¬ s.Nr + MAX_SKIP < untilN →
      (DR.SkipMessageKeys s untilN).2 = none ∧
      (s.CKr = none → (DR.SkipMessageKeys s untilN).1 = s) ∧
      (∀ ck, s.CKr = some ck →
        (DR.SkipMessageKeys s untilN).1.Nr = max s.Nr untilN ∧
        (DR.SkipMessageKeys s untilN).1.CKr = some (ckIter ck (untilN - s.Nr)) ∧
        (∀ i, s.Nr ≤ i → i < untilN →
          lookupMK (DR.SkipMessageKeys s untilN).1.MKSKIPPED (s.DHr, i)
            = some (KDF_CK_chainKey (ckIter ck (i - s.Nr)))) ∧
        (∀ k : MKKey, (k.2 < s.Nr ∨ untilN ≤ k.2 ∨ k.1 ≠ s.DHr) →
          lookupMK (DR.SkipMessageKeys s untilN).1.MKSKIPPED k
            = lookupMK s.MKSKIPPED k) ∧
        (DR.SkipMessageKeys s untilN).1.DHs = s.DHs ∧
        (DR.SkipMessageKeys s untilN).1.DHr = s.DHr ∧
        (DR.SkipMessageKeys s untilN).1.RK = s.RK ∧
        (DR.SkipMessageKeys s untilN).1.CKs = s.CKs ∧
        (DR.SkipMessageKeys s untilN).1.Ns = s.Ns ∧
        (DR.SkipMessageKeys s untilN).1.PN = s.PN)) := by
  by_cases hcond : s.Nr + MAX_SKIP < untilN
  · constructor
    · simp [DR.SkipMessageKeys, hcond]
    · intro hc; exact absurd hcond hc
  · rcases hckr : s.CKr with _ | ck
    · refine ⟨by simp [DR.SkipMessageKeys, hcond, hckr], fun _ => ?_⟩
      refine ⟨by simp [DR.SkipMessageKeys, hcond, hckr], fun _ => ?_, ?_⟩
      · simp [DR.SkipMessageKeys, hcond, hckr]
      · intro ck hck; simp at hck
    · have hck := hwf ck hckr
      have hrun := skipLoop_run s.DHr untilN (untilN - s.Nr) ck s.Nr s.MKSKIPPED hck rfl
      refine ⟨by simp [DR.SkipMessageKeys, hcond, hckr, hrun.1], fun _ => ?_⟩
      refine ⟨by simp [DR.SkipMessageKeys, hcond, hckr, hrun.1], ?_, ?_⟩
      · intro hnone; simp at hnone
      · intro ck2 hck2
        injection hck2 with hck2
        subst hck2
        refine ⟨by simp [DR.SkipMessageKeys, hcond, hckr, hrun.2.2],
          by simp [DR.SkipMessageKeys, hcond, hckr, hrun.2.1], ?_, ?_, ?_⟩
        · intro i hlo hhi
          have := skipLoop_lookup_in s.DHr untilN (untilN - s.Nr) ck s.Nr
            s.MKSKIPPED i hck rfl hlo hhi
          simpa [DR.SkipMessageKeys, hcond, hckr] using this
        · intro k hk
          have := skipLoop_lookup_out s.DHr untilN (untilN - s.Nr) ck s.Nr
            s.MKSKIPPED k hk
          simpa [DR.SkipMessageKeys, hcond, hckr] using this
        · simp [DR.SkipMessageKeys, hcond, hckr]

/-- C4 witness: the amended skip characterization on the concrete state
`s4W` (`Nr = 1`, `CKr = skW`) with `until = 3`: no throw, two keys
stored at positions 1 and 2, and `Nr` left at `max 1 3 = 3`. -/
theorem C4_skip_message_keys_witness :
    ¬ ((1 : Nat) + MAX_SKIP < 3) ∧
    (DR.SkipMessageKeys s4W 3).2 = none ∧
    (DR.SkipMessageKeys s4W 3).1.Nr = max 1 3 ∧
    (DR.SkipMessageKeys s4W 3).1.CKr = some (ckIter skW 2) ∧
    lookupMK (DR.SkipMessageKeys s4W 3).1.MKSKIPPED (some 1, 2)
      = some (KDF_CK_chainKey (ckIter skW 1)) := by
  have h := C4_skip_message_keys s4W 3
    (fun ck hck => by
      injection hck with hck
      rw [← hck]
      decide)
  have hc : ¬ s4W.Nr + MAX_SKIP < 3 := by decide
  have h2 := (h.2 hc)
  have h3 := h2.2.2 skW rfl
  exact ⟨hc, h2.1, h3.1, h3.2.1, h3.2.2.1 2 (by decide) (by decide)⟩

/-- C9.  X3DH agreement: for honestly generated key pairs (the
responder holds the private halves of the identity key, signed prekey
and optional one-time prekey whose public halves the initiator used,
and the initiator's identity and ephemeral public keys reach the
responder in the first message), the responder's mirror-symmetric DH
computation in `decryptMessage` produces exactly the initiator's `SK`
of `sendMessage` — the 32-byte HKDF-SHA512 of `F || DH1 || … || DHk`
with `F` 32 bytes of `0xFF`, zero salt and info `My super secret app` —
and the same `AD = Encode(IK_A) || Encode(IK_B)` with the curve-id
prefix `0x00`, in that fixed order. -/
theorem C9_x3dh_sk_ad_agree (IKa EKa IKb SPKb : KeyId) (OPKb : Option KeyId) :
    sendMessageSKAD IKa EKa IKb SPKb OPKb
      = decryptMessageSKAD IKb SPKb OPKb IKa EKa := by
  cases OPKb <;>
    simp [sendMessageSKAD, decryptMessageSKAD, concatList, KDFx3dh, Encode, DH_comm]

/-- C10.  `ENCRYPT` and `HENCRYPT` are deterministic functions of their
arguments: each reduces to a fixed term of the key, plaintext/header
and associated data; in particular the AES-256-CBC IV is the HKDF slice
64..80 (resp. 32..48) of the key's expansion, not fresh randomness.
Consequently two `RatchetEncrypt` runs on equal session states with
equal inputs return identical header/ciphertext pairs. -/
theorem C10_encrypt_deterministic
    (mk hk : Bytes) (p : String) (ad : Bytes) (h : DRHeader)
    (hmk : mk.len = 32) (hhk : hk.len = 32)
    (s1 s2 : DR) (hs : s1 = s2) (pt : String) (ad2 : Bytes) :
    ENCRYPT mk p ad = .ok ⟨.aesEnc (encryptionKeyOf mk) (ivOf mk) p,
        .hmac (authenticationKeyOf mk) (.cat2 ad (.utf8 p))⟩ ∧
    ivOf mk = (Bytes.hkdf mk zeroSalt80 "app-specific-encryption-key" 80).slice 64 80 ∧
    HENCRYPT hk h = .ok (.aesEncH (hEncryptionKeyOf hk) (hIvOf hk) h) ∧
    hIvOf hk = (Bytes.hkdf hk zeroSalt48 "app-specific-header-encryption-key" 48).slice 32 48 ∧
    DR.RatchetEncrypt s1 pt ad2 = DR.RatchetEncrypt s2 pt ad2 := by
  subst hs
  exact ⟨by simp [ENCRYPT, hmk], rfl, by simp [HENCRYPT, hhk], rfl, rfl⟩

/-- C10 witness: determinism instantiated at the concrete key `skW`,
header key `hk2W` and state `s2W`. -/
theorem C10_encrypt_deterministic_witness :
    ENCRYPT skW "m" adW = .ok ⟨.aesEnc (encryptionKeyOf skW) (ivOf skW) "m",
        .hmac (authenticationKeyOf skW) (.cat2 adW (.utf8 "m"))⟩ ∧
    DR.RatchetEncrypt s2W "m" adW = DR.RatchetEncrypt s2W "m" adW := by
  have h := C10_encrypt_deterministic skW hk2W "m" adW ⟨0, 0, 0⟩ rfl rfl
    s2W s2W rfl "m" adW
  exact ⟨h.1, h.2.2.2.2⟩

theorem Bytes.hasSub_refl (t : Bytes) : t.hasSub t = true := by
  cases t <;> simp [Bytes.hasSub]

theorem Bytes.hasSub_slice (b : Bytes) (lo hi : Nat) (d : Bytes)
    (h : b.hasSub d = true) : (Bytes.slice b lo hi).hasSub d = true := by
  simp [Bytes.hasSub, h]

theorem Bytes.hasSub_hmac_left (k m d : Bytes) (h : k.hasSub d = true) :
    (Bytes.hmac k m).hasSub d = true := by
  simp [Bytes.hasSub, h]

theorem Bytes.hasSub_hkdf_ikm (ikm salt : Bytes) (info : String) (n : Nat)
    (d : Bytes) (h : ikm.hasSub d = true) :
    (Bytes.hkdf ikm salt info n).hasSub d = true := by
  simp [Bytes.hasSub, h]

theorem hasSub_KDF_RK_chainKey (rk d : Bytes) :
    (KDF_RK_chainKey rk d).hasSub d = true :=
  Bytes.hasSub_slice _ _ _ _
    (Bytes.hasSub_hkdf_ikm _ _ _ _ _ (Bytes.hasSub_refl d))

theorem hasSub_KDF_CK_messageKey (c d : Bytes) (h : c.hasSub d = true) :
    (KDF_CK_messageKey c).hasSub d = true :=
  Bytes.hasSub_slice _ _ _ _ (Bytes.hasSub_hmac_left _ _ _ h)

theorem hasSub_ckIter (c d : Bytes) (n : Nat) (h : c.hasSub d = true) :
    (ckIter c n).hasSub d = true := by
  induction n with
  | zero => simpa [ckIter]
  | succ m ih => exact hasSub_KDF_CK_messageKey _ _ ih

theorem ne_of_hasSub {x y d : Bytes} (hx : x.hasSub d = true)
    (hy : y.hasSub d = false) : x ≠ y := by
  intro he
  rw [he, hy] at hx
  cases hx

theorem KDF_RK_rootKey_bsize (rk : Bytes) (x y : KeyId) :
    (KDF_RK_rootKey rk (DH x y)).bsize = rk.bsize + 3 := by
  simp [KDF_RK_rootKey, DH, Bytes.bsize]
  omega

theorem SkipMessageKeys_fields (s : DR) (u : Nat) :
    (DR.SkipMessageKeys s u).1.DHs = s.DHs ∧
    (DR.SkipMessageKeys s u).1.DHr = s.DHr ∧
    (DR.SkipMessageKeys s u).1.RK = s.RK ∧
    (DR.SkipMessageKeys s u).1.CKs = s.CKs ∧
    (DR.SkipMessageKeys s u).1.Ns = s.Ns ∧
    (DR.SkipMessageKeys s u).1.PN = s.PN := by
  by_cases hc : s.Nr + MAX_SKIP < u
  · simp [DR.SkipMessageKeys, hc]
  · cases hck : s.CKr <;> simp [DR.SkipMessageKeys, hc, hck]

theorem SkipMessageKeys_run (s : DR) (u : Nat) (ck : Bytes)
    (hck : s.CKr = some ck) (hlen : ck.len = 32)
    (hc : ¬ s.Nr + MAX_SKIP < u) :
    (DR.SkipMessageKeys s u).2 = none ∧
    (DR.SkipMessageKeys s u).1.Nr = max s.Nr u ∧
    (DR.SkipMessageKeys s u).1.CKr = some (ckIter ck (u - s.Nr)) := by
  have hrun := skipLoop_run s.DHr u (u - s.Nr) ck s.Nr s.MKSKIPPED hlen rfl
  simp [DR.SkipMessageKeys, hc, hck, hrun.1, hrun.2.1, hrun.2.2]

/-- C6 as amended.  A message whose `header.dh` differs from the
current `DHr` and does not match a stored skipped key, when decrypted
successfully, leaves the session rotated: `DHr = header.dh`, `DHs` is
the fresh `GENERATE_DH` pair (distinct from the old one, since
`GENERATE_DH` never re-issues a pair), `Ns = 0`, `PN` is the pre-call
`Ns`, and `RK`, `CKs`, `CKr` all differ from their pre-call values —
`RK` unconditionally, `CKs`/`CKr` under the ideal-crypto freshness
hypotheses that the pre-call chain keys were not computed from the two
new DH secrets.  `Nr`, however, is `header.n + 1` after the call, not
0: the claim's `Nr = 0` holds only at the instant of the DH ratchet
step, before the receiving chain is advanced to the message. -/
theorem C6_ratchet_rotation
    (s : DR) (h : DRHeader) (ct : Ct) (ad : Bytes) (fresh : KeyId)
    (hnoskip : lookupMK s.MKSKIPPED (some h.dh, h.n) = none)
    (hdh : some h.dh ≠ s.DHr)
    (hfresh : fresh ≠ s.DHs)
    (hckr : ∀ ck, s.CKr = some ck → ck.hasSub (DH s.DHs h.dh) = false)
    (hcks : ∀ ck, s.CKs = some ck → ck.hasSub (DH fresh h.dh) = false)
    (hok : (DR.RatchetDecrypt s h ct ad fresh).2.isOk = true) :
    (DR.RatchetDecrypt s h ct ad fresh).1.DHr = some h.dh ∧
    (DR.RatchetDecrypt s h ct ad fresh).1.DHs = fresh ∧
    (DR.RatchetDecrypt s h ct ad fresh).1.DHs ≠ s.DHs ∧
    (DR.RatchetDecrypt s h ct ad fresh).1.Ns = 0 ∧
    (DR.RatchetDecrypt s h ct ad fresh).1.Nr = h.n + 1 ∧
    (DR.RatchetDecrypt s h ct ad fresh).1.PN = s.Ns ∧
    (DR.RatchetDecrypt s h ct ad fresh).1.RK ≠ s.RK ∧
    (DR.RatchetDecrypt s h ct ad fresh).1.CKs ≠ s.CKs ∧
    (DR.RatchetDecrypt s h ct ad fresh).1.CKr ≠ s.CKr := by
  have hTry : DR.TrySkippedMessageKeys s h ct ad = (s, .ok none) := by
    simp [DR.TrySkippedMessageKeys, hnoskip]
  rcases hskip1 : DR.SkipMessageKeys s h.pn with ⟨s2, e2⟩
  have hf2 := SkipMessageKeys_fields s h.pn
  rw [hskip1] at hf2
  obtain ⟨hf2DHs, hf2DHr, hf2RK, hf2CKs, hf2Ns, hf2PN⟩ := hf2
  replace hf2DHs : s2.DHs = s.DHs := by simpa using hf2DHs
  replace hf2RK : s2.RK = s.RK := by simpa using hf2RK
  replace hf2Ns : s2.Ns = s.Ns := by simpa using hf2Ns
  cases e2 with
  | some e =>
    have heq : DR.RatchetDecrypt s h ct ad fresh = (s2, .error e) := by
      simp [DR.RatchetDecrypt, hTry, hdh, hskip1]
    rw [heq] at hok
    simp [Except.isOk, Except.toBool] at hok
  | none =>
    by_cases hlen2 : s2.RK.len = 32
    · have hDHR : DR.DHRatchet s2 h fresh =
          (⟨fresh, some h.dh,
            KDF_RK_rootKey (KDF_RK_rootKey s2.RK (DH s2.DHs h.dh)) (DH fresh h.dh),
            some (KDF_RK_chainKey (KDF_RK_rootKey s2.RK (DH s2.DHs h.dh)) (DH fresh h.dh)),
            some (KDF_RK_chainKey s2.RK (DH s2.DHs h.dh)),
            0, 0, s2.Ns, s2.MKSKIPPED⟩, none) := by
        simp [DR.DHRatchet, KDF_RK_ok, hlen2, KDF_RK_rootKey_len]
      by_cases hn : MAX_SKIP < h.n
      · have hskip2tm : DR.SkipMessageKeys
            (⟨fresh, some h.dh,
              KDF_RK_rootKey (KDF_RK_rootKey s2.RK (DH s2.DHs h.dh)) (DH fresh h.dh),
              some (KDF_RK_chainKey (KDF_RK_rootKey s2.RK (DH s2.DHs h.dh)) (DH fresh h.dh)),
              some (KDF_RK_chainKey s2.RK (DH s2.DHs h.dh)),
              0, 0, s2.Ns, s2.MKSKIPPED⟩ : DR) h.n =
            (⟨fresh, some h.dh,
              KDF_RK_rootKey (KDF_RK_rootKey s2.RK (DH s2.DHs h.dh)) (DH fresh h.dh),
              some (KDF_RK_chainKey (KDF_RK_rootKey s2.RK (DH s2.DHs h.dh)) (DH fresh h.dh)),
              some (KDF_RK_chainKey s2.RK (DH s2.DHs h.dh)),
              0, 0, s2.Ns, s2.MKSKIPPED⟩, some .tooMany) := by
          simp [DR.SkipMessageKeys, hn]
        have heq : DR.RatchetDecrypt s h ct ad fresh =
            (⟨fresh, some h.dh,
              KDF_RK_rootKey (KDF_RK_rootKey s2.RK (DH s2.DHs h.dh)) (DH fresh h.dh),
              some (KDF_RK_chainKey (KDF_RK_rootKey s2.RK (DH s2.DHs h.dh)) (DH fresh h.dh)),
              some (KDF_RK_chainKey s2.RK (DH s2.DHs h.dh)),
              0, 0, s2.Ns, s2.MKSKIPPED⟩, .error .tooMany) := by
          simp [DR.RatchetDecrypt, hTry, hdh, hskip1, hDHR, hskip2tm]
        rw [heq] at hok
        simp [Except.isOk, Except.toBool] at hok
      · rcases hs2 : DR.SkipMessageKeys
            (⟨fresh, some h.dh,
              KDF_RK_rootKey (KDF_RK_rootKey s2.RK (DH s2.DHs h.dh)) (DH fresh h.dh),
              some (KDF_RK_chainKey (KDF_RK_rootKey s2.RK (DH s2.DHs h.dh)) (DH fresh h.dh)),
              some (KDF_RK_chainKey s2.RK (DH s2.DHs h.dh)),
              0, 0, s2.Ns, s2.MKSKIPPED⟩ : DR) h.n with ⟨s4, e4⟩
        have hrun := SkipMessageKeys_run
          (⟨fresh, some h.dh,
            KDF_RK_rootKey (KDF_RK_rootKey s2.RK (DH s2.DHs h.dh)) (DH fresh h.dh),
            some (KDF_RK_chainKey (KDF_RK_rootKey s2.RK (DH s2.DHs h.dh)) (DH fresh h.dh)),
            some (KDF_RK_chainKey s2.RK (DH s2.DHs h.dh)),
            0, 0, s2.Ns, s2.MKSKIPPED⟩ : DR) h.n
          (KDF_RK_chainKey s2.RK (DH s2.DHs h.dh)) rfl
          (KDF_RK_chainKey_len _ _) (by simpa using hn)
        rw [hs2] at hrun
        have hf4 := SkipMessageKeys_fields
          (⟨fresh, some h.dh,
            KDF_RK_rootKey (KDF_RK_rootKey s2.RK (DH s2.DHs h.dh)) (DH fresh h.dh),
            some (KDF_RK_chainKey (KDF_RK_rootKey s2.RK (DH s2.DHs h.dh)) (DH fresh h.dh)),
            some (KDF_RK_chainKey s2.RK (DH s2.DHs h.dh)),
            0, 0, s2.Ns, s2.MKSKIPPED⟩ : DR) h.n
        rw [hs2] at hf4
        have he4 : e4 = none := by simpa using hrun.1
        subst he4
        have hs4Nr : s4.Nr = h.n := by
          have := hrun.2.1
          simpa [Nat.max_eq_right (Nat.zero_le h.n)] using this
        have hs4CKr : s4.CKr =
            some (ckIter (KDF_RK_chainKey s2.RK (DH s2.DHs h.dh)) h.n) := by
          simpa using hrun.2.2
        have hkck := KDF_CK_ok (ckIter (KDF_RK_chainKey s2.RK (DH s2.DHs h.dh)) h.n)
          (ckIter_len _ _ (KDF_RK_chainKey_len _ _))
        cases hdec : DECRYPT
            (KDF_CK_chainKey (ckIter (KDF_RK_chainKey s2.RK (DH s2.DHs h.dh)) h.n))
            ct (CONCAT ad h) with
        | error e =>
          have heq : DR.RatchetDecrypt s h ct ad fresh =
              ({ s4 with
                  CKr := some (KDF_CK_messageKey
                    (ckIter (KDF_RK_chainKey s2.RK (DH s2.DHs h.dh)) h.n)),
                  Nr := s4.Nr + 1 }, .error e) := by
            simp [DR.RatchetDecrypt, hTry, hdh, hskip1, hDHR, hs2, hs4CKr, hkck, hdec]
          rw [heq] at hok
          simp [Except.isOk, Except.toBool] at hok
        | ok pt =>
          have heq : DR.RatchetDecrypt s h ct ad fresh =
              ({ s4 with
                  CKr := some (KDF_CK_messageKey
                    (ckIter (KDF_RK_chainKey s2.RK (DH s2.DHs h.dh)) h.n)),
                  Nr := s4.Nr + 1 }, .ok pt) := by
            simp [DR.RatchetDecrypt, hTry, hdh, hskip1, hDHR, hs2, hs4CKr, hkck, hdec]
          rw [heq]
          obtain ⟨hf4DHs, hf4DHr, hf4RK, hf4CKs, hf4Ns, hf4PN⟩ := hf4
          simp only at hf4DHs hf4DHr hf4RK hf4CKs hf4Ns hf4PN
          refine ⟨by simp [hf4DHr], by simp [hf4DHs], by simp [hf4DHs, hfresh],
            by simp [hf4Ns], by simp [hs4Nr], by simp [hf4PN, hf2Ns], ?_, ?_, ?_⟩
          · simp only [hf4RK]
            intro heqrk
            have hb := congrArg Bytes.bsize heqrk
            rw [hf2RK] at hb
            rw [KDF_RK_rootKey_bsize, KDF_RK_rootKey_bsize] at hb
            omega
          · simp only [hf4CKs]
            have htrue : (KDF_RK_chainKey
                (KDF_RK_rootKey s2.RK (DH s2.DHs h.dh)) (DH fresh h.dh)).hasSub
                (DH fresh h.dh) = true := hasSub_KDF_RK_chainKey _ _
            cases hsc : s.CKs with
            | none => simp
            | some c =>
              have hfalse := hcks c hsc
              intro heqc
              injection heqc with heqc
              exact ne_of_hasSub htrue hfalse heqc
          · simp only []
            have htrue : (KDF_CK_messageKey
                (ckIter (KDF_RK_chainKey s2.RK (DH s2.DHs h.dh)) h.n)).hasSub
                (DH s.DHs h.dh) = true := by
              refine hasSub_KDF_CK_messageKey _ _ (hasSub_ckIter _ _ _ ?_)
              rw [hf2DHs]
              exact hasSub_KDF_RK_chainKey _ _
            cases hsc : s.CKr with
            | none => simp
            | some c =>
              have hfalse := hckr c hsc
              intro heqc
              injection heqc with heqc
              exact ne_of_hasSub htrue hfalse heqc
    · have heq : DR.RatchetDecrypt s h ct ad fresh =
          ({ s2 with PN := s2.Ns, Ns := 0, Nr := 0, DHr := some h.dh },
            .error .invalidKey) := by
        simp [DR.RatchetDecrypt, hTry, hdh, hskip1, DR.DHRatchet, KDF_RK, hlen2]
      rw [heq] at hok
      simp [Except.isOk, Except.toBool] at hok

/-- C6 counterexample: in the concrete first exchange, B successfully
decrypts a message whose `header.dh` (key 0) differs from B's `DHr`
(null), yet after the call `Nr = 1`, not 0 — the receiving chain has
already been stepped past the message. -/
theorem C6_counterexample_Nr_not_zero :
    some (0 : KeyId) ≠ (DR.fromResponderSide skW 1).DHr ∧
    (DR.RatchetDecrypt (DR.fromResponderSide skW 1) ⟨0, 0, 0⟩ ct1W adW 2).2
      = .ok "Hi Bob!" ∧
    (DR.RatchetDecrypt (DR.fromResponderSide skW 1) ⟨0, 0, 0⟩ ct1W adW 2).1.Nr = 1 ∧
    (1 : Nat) ≠ 0 := by
  decide

/-- C6 witness: the amended rotation theorem applied to the concrete
first exchange (responder session, header from key pair 0, fresh pair 2). -/
theorem C6_ratchet_rotation_witness :
    (DR.RatchetDecrypt (DR.fromResponderSide skW 1) ⟨0, 0, 0⟩ ct1W adW 2).1.DHr
      = some 0 ∧
    (DR.RatchetDecrypt (DR.fromResponderSide skW 1) ⟨0, 0, 0⟩ ct1W adW 2).1.DHs = 2 ∧
    (DR.RatchetDecrypt (DR.fromResponderSide skW 1) ⟨0, 0, 0⟩ ct1W adW 2).1.Nr
      = 0 + 1 := by
  have h := C6_ratchet_rotation (DR.fromResponderSide skW 1) ⟨0, 0, 0⟩ ct1W adW 2
    rfl (by decide) (by decide)
    (by intro ck hck; simp [DR.fromResponderSide] at hck)
    (by intro ck hck; simp [DR.fromResponderSide] at hck)
    (by decide)
  exact ⟨h.1, h.2.1, h.2.2.2.2.1⟩
